import Mathlib

/-!
Verification development for the Element audio graph engine.

The node runtime state is embedded from `src/src/engine/GraphNode.h`
(JUCE `Atomic<int>` fields become `Int`, `Atomic<float>` and RMS values
become `ℚ`, `String` stays `String`).  The graph container
(`GraphProcessor`: node table, arc set, `connect` validation) is not among
the provided sources, so it is modelled from the specification, as marked
on each such definition.
-/

namespace ElementSpec

/-- Runtime state of a `GraphNode`, one field per private data member of
`GraphNode` in `src/src/engine/GraphNode.h` (lines 358-419) that the claims
touch.  `Atomic<T>` wrappers are dropped; the single-writer scalar fields
are plain values here. -/
structure GraphNodeState where
  enabled : Int
  bypassed : Int
  mute : Int
  muteInput : Int
  latencySamples : Int
  name : String
  gain : ℚ
  lastGain : ℚ
  inputGain : ℚ
  lastInputGain : ℚ
  inRMS : List ℚ
  outRMS : List ℚ
  keyRangeLow : Int
  keyRangeHigh : Int
  transposeOffset : Int
  midiProgram : Int
  lastMidiProgram : Int
  midiProgramsEnabled : Int
  globalMidiPrograms : Int
  osPow : Nat
  osLatency : ℚ
deriving DecidableEq

/-- The member initializers of `GraphNode` (GraphNode.h lines 358-419):
`enabled { 1 }`, `bypassed { 0 }`, `mute { 0 }`, `muteInput { 0 }`,
`latencySamples = 0`, default-constructed gains (JUCE `Atomic<float>`
zero-initializes), empty RMS arrays, `keyRangeLow { 0 }`,
`keyRangeHigh { 127 }`, `transposeOffset { 0 }`, `midiProgram { 0 }`,
`lastMidiProgram { -1 }`, `midiProgramsEnabled { 0 }`,
`globalMidiPrograms { 0 }`, `osPow = 0`, `osLatency = 0.0f`. -/
def initialGraphNode : GraphNodeState where
  enabled := 1
  bypassed := 0
  mute := 0
  muteInput := 0
  latencySamples := 0
  name := ""
  gain := 0
  lastGain := 0
  inputGain := 0
  lastInputGain := 0
  inRMS := []
  outRMS := []
  keyRangeLow := 0
  keyRangeHigh := 127
  transposeOffset := 0
  midiProgram := 0
  lastMidiProgram := -1
  midiProgramsEnabled := 0
  globalMidiPrograms := 0
  osPow := 0
  osLatency := 0

/-- `GraphNode::getName`: returns the `name` member. -/
def getName (s : GraphNodeState) : String := s.name

/-- `GraphNode::setName` (GraphNode.h lines 341-346):
`if (newName.isNotEmpty()) name = newName;` — an empty string is ignored. -/
def setName (s : GraphNodeState) (newName : String) : GraphNodeState :=
  if newName.isEmpty then s else { s with name := newName }

/-- `GraphNode::getLatencySamples` (GraphNode.h line 152):
`latencySamples + roundFloatToInt (osLatency)`; `roundFloatToInt` is
round-to-nearest, modelled by `round`. -/
def getLatencySamples (s : GraphNodeState) : Int :=
  s.latencySamples + round s.osLatency

/-- `GraphNode::setLatencySamples` (GraphNode.h line 155):
`if (latencySamples != latency) latencySamples = latency;`. -/
def setLatencySamples (s : GraphNodeState) (latency : Int) : GraphNodeState :=
  if s.latencySamples ≠ latency then { s with latencySamples := latency } else s

/-- `GraphNode::getGain`: `gain.get()`. -/
def getGain (s : GraphNodeState) : ℚ := s.gain

/-- `GraphNode::getLastGain`: `lastGain.get()`. -/
def getLastGain (s : GraphNodeState) : ℚ := s.lastGain

/-- `GraphNode::getInputGain`: `inputGain.get()`. -/
def getInputGain (s : GraphNodeState) : ℚ := s.inputGain

/-- `GraphNode::getLastInputGain`: `lastInputGain.get()`. -/
def getLastInputGain (s : GraphNodeState) : ℚ := s.lastInputGain

/-- `GraphNode::updateGain` (GraphNode.h lines 168-174):
`if (lastGain.get() != gain.get()) lastGain = gain;` then the same for
`lastInputGain`/`inputGain`. -/
def updateGain (s : GraphNodeState) : GraphNodeState :=
  let s1 := if s.lastGain ≠ s.gain then { s with lastGain := s.gain } else s
  if s1.lastInputGain ≠ s1.inputGain then { s1 with lastInputGain := s1.inputGain } else s1

/-- Modelled from the spec: `GraphNode::setGain` is declared in GraphNode.h
(line 161) but its body (GraphNode.cpp) is not among the sources.  Per the
spec, "Setting `gain` changes `getGain()` immediately; `getLastGain()`
changes only after `updateGain()`", so the setter stores the pending gain
and touches nothing else. -/
def setGain (s : GraphNodeState) (f : ℚ) : GraphNodeState :=
  { s with gain := f }

/-- `GraphNode::isEnabled` (GraphNode.h line 202): `enabled.get() == 1`. -/
def isEnabled (s : GraphNodeState) : Bool := s.enabled == 1

/-- `GraphNode::isMuted` (GraphNode.h line 315): `mute.get() == 1`. -/
def isMuted (s : GraphNodeState) : Bool := s.mute == 1

/-- `GraphNode::isMutingInputs` (GraphNode.h line 317): `muteInput.get() == 1`. -/
def isMutingInputs (s : GraphNodeState) : Bool := s.muteInput == 1

/-- Modelled from the spec: the `bypassed` flag (GraphNode.h line 361) has no
public accessor in the header; the query mirrors the sibling accessors
`isEnabled`/`isMuted`. -/
def isBypassed (s : GraphNodeState) : Bool := s.bypassed == 1

/-- `GraphNode::setMuteInput` (GraphNode.h line 316):
`muteInput.set (shouldMuteInput ? 1 : 0)`. -/
def setMuteInput (s : GraphNodeState) (shouldMuteInput : Bool) : GraphNodeState :=
  { s with muteInput := if shouldMuteInput then 1 else 0 }

/-- Modelled from the spec: `GraphNode::setEnabled` is declared in
GraphNode.h (line 199) but its body is not among the sources.  The spec
lists `enabled` among "independent booleans", so the setter stores the flag
and changes no other flag. -/
def setEnabled (s : GraphNodeState) (shouldBeEnabled : Bool) : GraphNodeState :=
  { s with enabled := if shouldBeEnabled then 1 else 0 }

/-- Modelled from the spec: `GraphNode::setMuted` is declared in GraphNode.h
(line 314) but its body is not among the sources.  The spec lists `muted`
among "independent booleans", so the setter stores the flag and changes no
other flag. -/
def setMuted (s : GraphNodeState) (muted : Bool) : GraphNodeState :=
  { s with mute := if muted then 1 else 0 }

/-- Modelled from the spec: the bypass setter.  The `bypassed` flag
(GraphNode.h line 361) is written only by friend classes whose code is not
among the sources; the spec lists `bypassed` among "independent booleans",
so the setter stores the flag and changes no other flag. -/
def setBypassed (s : GraphNodeState) (shouldBeBypassed : Bool) : GraphNodeState :=
  { s with bypassed := if shouldBeBypassed then 1 else 0 }

/-- JUCE `Array::getUnchecked`: an unchecked element read.  `none` marks an
out-of-bounds access (undefined behaviour in the C++). -/
def getUnchecked (l : List ℚ) (i : Int) : Option ℚ :=
  if h : 0 ≤ i ∧ i < (l.length : Int) then some (l.get ⟨i.toNat, by omega⟩) else none

/-- `GraphNode::getInputRMS` (GraphNode.h line 189):
`(chan < inRMS.size()) ? inRMS.getUnchecked(chan)->get() : 0.0f`. -/
def getInputRMS (s : GraphNodeState) (chan : Int) : Option ℚ :=
  if chan < (s.inRMS.length : Int) then getUnchecked s.inRMS chan else some 0

/-- `GraphNode::getOutputRMS` (GraphNode.h line 191):
`(chan < outRMS.size()) ? outRMS.getUnchecked(chan)->get() : 0.0f`. -/
def getOutputRMS (s : GraphNodeState) (chan : Int) : Option ℚ :=
  if chan < (s.outRMS.length : Int) then getUnchecked s.outRMS chan else some 0

/-- `GraphNode::getKeyRange` (GraphNode.h line 215):
`Range<int> { keyRangeLow.get(), keyRangeHigh.get() }`. -/
def getKeyRange (s : GraphNodeState) : Int × Int := (s.keyRangeLow, s.keyRangeHigh)

/-- `GraphNode::getTransposeOffset` (GraphNode.h line 224). -/
def getTransposeOffset (s : GraphNodeState) : Int := s.transposeOffset

/-- `GraphNode::getMidiProgram` (GraphNode.h line 246): `midiProgram.get()`. -/
def getMidiProgram (s : GraphNodeState) : Int := s.midiProgram

/-- `GraphNode::areMidiProgramsEnabled` (GraphNode.h line 240):
`midiProgramsEnabled.get() == 1`. -/
def areMidiProgramsEnabled (s : GraphNodeState) : Bool := s.midiProgramsEnabled == 1

/-- `GraphNode::useGlobalMidiPrograms` (GraphNode.h line 233):
`globalMidiPrograms.get() == 1`. -/
def useGlobalMidiPrograms (s : GraphNodeState) : Bool := s.globalMidiPrograms == 1

/-- `const int maxOsPow = 3` (GraphNode.h line 419). -/
def maxOsPow : Nat := 3

/-- `GraphNode::getOversamplingFactor`: the factor is `2 ^ osPow`. -/
def getOversamplingFactor (s : GraphNodeState) : Nat := 2 ^ s.osPow

/-- Modelled from the spec: `GraphNode::setOversamplingFactor` is declared
in GraphNode.h (line 334) but its body is not among the sources.  Per the
spec the factor is "a power of two up to a fixed maximum (3 ⇒ up to 8×)",
so the stored exponent is the factor's base-2 logarithm clamped to
`maxOsPow`. -/
def setOversamplingFactor (s : GraphNodeState) (osFactor : Nat) : GraphNodeState :=
  { s with osPow := min (Nat.log2 osFactor) maxOsPow }

/-- Modelled from the spec: the audible output of one node for one block.
The rendering ops live in `GraphProcessor`, which is not among the sources.
Per the spec, "**bypassed** runs the pass-through path instead of real
processing; **muted** forces output to silence after whichever path ran".
`processOut` and `bypassOut` are the blocks the two paths would produce. -/
def renderOutput (s : GraphNodeState) (processOut bypassOut : Nat → ℚ) : Nat → ℚ :=
  let out := if s.bypassed == 1 then bypassOut else processOut
  if s.mute == 1 then (fun _ => 0) else out

/-! ## The graph container

`GraphProcessor` (node table, arc set, `connect` validation, rebuild) is not
among the provided sources; the definitions below are modelled from the
specification, §3 and §4.2. -/

/-- Port kinds, from the spec's data model: `type ∈ {Audio, Control, Midi}`. -/
inductive PortType
  | audio
  | control
  | midi
deriving DecidableEq

/-- Port direction, from the spec's data model: `direction ∈ {Input, Output}`. -/
inductive PortDirection
  | input
  | output
deriving DecidableEq

/-- Modelled from the spec: a node's port — `{type, direction, index}` (the
channel and name play no role in the claims). -/
structure Port where
  index : Nat
  type : PortType
  direction : PortDirection
deriving DecidableEq

/-- Modelled from the spec: one entry of the node table — a node id with its
port table. -/
structure NodeEntry where
  nodeId : Nat
  ports : List Port
deriving DecidableEq

/-- Modelled from the spec: an arc
`{sourceNodeId, sourcePort, destNodeId, destPort}`. -/
structure Arc where
  sourceNode : Nat
  sourcePort : Nat
  destNode : Nat
  destPort : Nat
deriving DecidableEq

/-- Modelled from the spec: the graph — node table plus arc set. -/
structure Graph where
  nodes : List NodeEntry
  arcs : List Arc
deriving DecidableEq

/-- Look up a node by id in the node table. -/
def findNode (g : Graph) (nid : Nat) : Option NodeEntry :=
  g.nodes.find? (fun n => n.nodeId == nid)

/-- Look up a port by node id and port index; `none` when either the node or
the port does not exist. -/
def findPort (g : Graph) (nid pidx : Nat) : Option Port :=
  match findNode g nid with
  | none => none
  | some n => n.ports.find? (fun p => p.index == pidx)

/-- One hop along an arc: some arc runs from node `a` to node `b`. -/
def arcStep (arcs : List Arc) (a b : Nat) : Prop :=
  ∃ e ∈ arcs, e.sourceNode = a ∧ e.destNode = b

/-- Node `b` is reachable from node `a` through existing arcs (zero or more
hops). -/
def Reaches (arcs : List Arc) (a b : Nat) : Prop :=
  Relation.ReflTransGen (arcStep arcs) a b

/-- The arc set contains no cycle: no node reaches itself in one or more
hops. -/
def Acyclic (arcs : List Arc) : Prop :=
  ∀ a, ¬ Relation.TransGen (arcStep arcs) a a

/-- Successor node ids of `a` along the arcs. -/
def succs (arcs : List Arc) (a : Nat) : List Nat :=
  (arcs.filter (fun e => e.sourceNode == a)).map (fun e => e.destNode)

/-- Bounded reachability check: is `b` reachable from `a` in at most `n`
hops? -/
def reachUpTo (arcs : List Arc) : Nat → Nat → Nat → Bool
  | 0, a, b => a == b
  | n + 1, a, b => a == b || (succs arcs a).any (fun c => reachUpTo arcs n c b)

/-- Executable reachability: a simple path needs at most `arcs.length` hops
(proved below in `reachable_iff_Reaches`). -/
def reachable (arcs : List Arc) (a b : Nat) : Bool :=
  reachUpTo arcs arcs.length a b

/-- The typed failures of `connect`, from the spec §4.2. -/
inductive ConnectError
  | invalidPort
  | directionMismatch
  | typeMismatch
  | duplicate
  | wouldCreateCycle
deriving DecidableEq

/-- Modelled from the spec: `GraphProcessor::connect (srcNode, srcPort,
dstNode, dstPort)` — "fails with *InvalidPort* if either port does not
exist, *DirectionMismatch* if source isn't Output or destination isn't
Input, *TypeMismatch* if port types differ, *Duplicate* if the arc already
exists, *WouldCreateCycle* if destination can already reach source", else
adds the arc. -/
def connect (g : Graph) (srcNode srcPort dstNode dstPort : Nat) :
    Except ConnectError Graph :=
  match findPort g srcNode srcPort, findPort g dstNode dstPort with
  | none, _ => .error .invalidPort
  | some _, none => .error .invalidPort
  | some sp, some dp =>
    if sp.direction != PortDirection.output || dp.direction != PortDirection.input then
      .error .directionMismatch
    else if sp.type != dp.type then
      .error .typeMismatch
    else if Arc.mk srcNode srcPort dstNode dstPort ∈ g.arcs then
      .error .duplicate
    else if reachable g.arcs dstNode srcNode then
      .error .wouldCreateCycle
    else
      .ok { g with arcs := Arc.mk srcNode srcPort dstNode dstPort :: g.arcs }

/-- The graph after a `connect` call: the new graph on success, the old
graph untouched on failure ("on any failure the graph is left unchanged"). -/
def connectApply (g : Graph) (srcNode srcPort dstNode dstPort : Nat) : Graph :=
  match connect g srcNode srcPort dstNode dstPort with
  | .error _ => g
  | .ok g2 => g2

/-- Modelled from the spec: the topology-mutating operations — `connect`,
`disconnect (node, filters)` (removes arcs matching input/output filter
flags), node addition, and node removal (which drops the node's arcs). -/
inductive GraphOp
  | connectOp (srcNode srcPort dstNode dstPort : Nat)
  | disconnectOp (nid : Nat) (inputs outputs : Bool)
  | addNodeOp (n : NodeEntry)
  | removeNodeOp (nid : Nat)
deriving DecidableEq

/-- Apply one topology operation to the graph. -/
def applyOp (g : Graph) : GraphOp → Graph
  | .connectOp sn sp dn dp => connectApply g sn sp dn dp
  | .disconnectOp nid inputs outputs =>
      { g with arcs := g.arcs.filter (fun e =>
          !((inputs && e.destNode == nid) || (outputs && e.sourceNode == nid))) }
  | .addNodeOp n => { g with nodes := n :: g.nodes }
  | .removeNodeOp nid =>
      { nodes := g.nodes.filter (fun n => n.nodeId != nid),
        arcs := g.arcs.filter (fun e => e.sourceNode != nid && e.destNode != nid) }

/-- Apply a sequence of topology operations in order. -/
def applyOps (g : Graph) (ops : List GraphOp) : Graph :=
  ops.foldl applyOp g

/-! ## Reachability: the executable check agrees with true reachability -/

/-- Membership in `succs` is exactly one arc hop. -/
theorem mem_succs {arcs : List Arc} {a c : Nat} :
    c ∈ succs arcs a ↔ arcStep arcs a c := by
  simp only [succs, List.mem_map, List.mem_filter, arcStep, beq_iff_eq]
  constructor
  · rintro ⟨e, ⟨he, hsrc⟩, rfl⟩
    exact ⟨e, he, hsrc, rfl⟩
  · rintro ⟨e, he, hsrc, rfl⟩
    exact ⟨e, ⟨he, hsrc⟩, rfl⟩

/-- One-step unfolding of the bounded check. -/
theorem reachUpTo_succ_iff (arcs : List Arc) (n a b : Nat) :
    reachUpTo arcs (n + 1) a b = true ↔
      a = b ∨ ∃ c ∈ succs arcs a, reachUpTo arcs n c b = true := by
  show (a == b || (succs arcs a).any (fun c => reachUpTo arcs n c b)) = true ↔ _
  simp only [Bool.or_eq_true, beq_iff_eq, List.any_eq_true]

/-- Zero-step unfolding of the bounded check. -/
theorem reachUpTo_zero_iff (arcs : List Arc) (a b : Nat) :
    reachUpTo arcs 0 a b = true ↔ a = b := by
  show (a == b) = true ↔ _
  simp only [beq_iff_eq]

/-- Soundness of the bounded check: a positive answer gives real
reachability. -/
theorem reachUpTo_sound (arcs : List Arc) :
    ∀ n a b, reachUpTo arcs n a b = true →
      Relation.ReflTransGen (arcStep arcs) a b := by
  intro n
  induction n with
  | zero =>
    intro a b h
    exact (reachUpTo_zero_iff arcs a b).1 h ▸ Relation.ReflTransGen.refl
  | succ n ih =>
    intro a b h
    rcases (reachUpTo_succ_iff arcs n a b).1 h with rfl | ⟨c, hc, hr⟩
    · exact Relation.ReflTransGen.refl
    · exact Relation.ReflTransGen.head (mem_succs.1 hc) (ih c b hr)

/-- A hop-by-hop path from `a` to `b` whose intermediate/final nodes are
`cs`. -/
def chainFrom (arcs : List Arc) : Nat → List Nat → Nat → Prop
  | a, [], b => a = b
  | a, c :: cs, b => arcStep arcs a c ∧ chainFrom arcs c cs b

/-- Real reachability yields an explicit path. -/
theorem reaches_exists_chain {arcs : List Arc} {a b : Nat}
    (h : Relation.ReflTransGen (arcStep arcs) a b) :
    ∃ cs, chainFrom arcs a cs b := by
  induction h using Relation.ReflTransGen.head_induction_on with
  | refl => exact ⟨[], rfl⟩
  | head hstep _ ih =>
    obtain ⟨cs, hc⟩ := ih
    exact ⟨_ :: cs, hstep, hc⟩

/-- Splitting a path at a list concatenation. -/
theorem chainFrom_append {arcs : List Arc} {a b : Nat} (u v : List Nat) :
    chainFrom arcs a (u ++ v) b ↔
      ∃ m, chainFrom arcs a u m ∧ chainFrom arcs m v b := by
  induction u generalizing a with
  | nil =>
    constructor
    · intro h
      exact ⟨a, rfl, h⟩
    · rintro ⟨m, rfl, h⟩
      exact h
  | cons c u ih =>
    constructor
    · rintro ⟨hstep, hrest⟩
      obtain ⟨m, h1, h2⟩ := ih.1 hrest
      exact ⟨m, ⟨hstep, h1⟩, h2⟩
    · rintro ⟨m, ⟨hstep, h1⟩, h2⟩
      exact ⟨hstep, ih.2 ⟨m, h1, h2⟩⟩

/-- A path ending on an explicit last node ends there. -/
theorem chainFrom_last {arcs : List Arc} {a m x : Nat} {v : List Nat}
    (h : chainFrom arcs a (v ++ [x]) m) : m = x := by
  obtain ⟨k, _, hk⟩ := (chainFrom_append v [x]).1 h
  obtain ⟨_, hlast⟩ := hk
  exact hlast.symm

/-- An explicit path gives a positive bounded check at its own length. -/
theorem chainFrom_reachUpTo {arcs : List Arc} {b : Nat} :
    ∀ (cs : List Nat) (a : Nat), chainFrom arcs a cs b →
      reachUpTo arcs cs.length a b = true := by
  intro cs
  induction cs with
  | nil =>
    intro a h
    simpa [reachUpTo] using h
  | cons c cs ih =>
    intro a h
    obtain ⟨hstep, hrest⟩ := h
    exact (reachUpTo_succ_iff arcs cs.length a b).2
      (Or.inr ⟨c, mem_succs.2 hstep, ih c hrest⟩)

/-- The bounded check is monotone in the bound. -/
theorem reachUpTo_mono {arcs : List Arc} {b : Nat} :
    ∀ {n m : Nat} (a : Nat), n ≤ m → reachUpTo arcs n a b = true →
      reachUpTo arcs m a b = true := by
  have bump : ∀ (n : Nat) (a : Nat), reachUpTo arcs n a b = true →
      reachUpTo arcs (n + 1) a b = true := by
    intro n
    induction n with
    | zero =>
      intro a h
      exact (reachUpTo_succ_iff arcs 0 a b).2 (Or.inl ((reachUpTo_zero_iff arcs a b).1 h))
    | succ n ih =>
      intro a h
      rcases (reachUpTo_succ_iff arcs n a b).1 h with h | ⟨c, hc, hr⟩
      · exact (reachUpTo_succ_iff arcs (n + 1) a b).2 (Or.inl h)
      · exact (reachUpTo_succ_iff arcs (n + 1) a b).2 (Or.inr ⟨c, hc, ih c hr⟩)
  intro n m a hle h
  induction hle with
  | refl => exact h
  | step _ ih => exact bump _ a ih

/-- Every node visited by a path is the destination of some arc. -/
theorem chainFrom_mem_dest {arcs : List Arc} {b : Nat} :
    ∀ (cs : List Nat) (a : Nat), chainFrom arcs a cs b →
      ∀ x ∈ cs, x ∈ arcs.map Arc.destNode := by
  intro cs
  induction cs with
  | nil => intro a _ x hx; cases hx
  | cons c cs ih =>
    intro a h x hx
    obtain ⟨⟨e, he, hsrc, hdst⟩, hrest⟩ := h
    rcases List.mem_cons.1 hx with rfl | hx2
    · exact List.mem_map.2 ⟨e, he, hdst⟩
    · exact ih c hrest x hx2

/-- A list that is not `Nodup` splits around a repeated element. -/
theorem exists_dup_split {l : List Nat} (hnd : ¬ l.Nodup) :
    ∃ xs x ys zs, l = xs ++ x :: (ys ++ x :: zs) := by
  induction l with
  | nil => exact absurd List.nodup_nil hnd
  | cons c t ih =>
    by_cases hc : c ∈ t
    · obtain ⟨ys, zs, rfl⟩ := List.append_of_mem hc
      exact ⟨[], c, ys, zs, rfl⟩
    · have ht : ¬ t.Nodup := fun h => hnd (List.nodup_cons.2 ⟨hc, h⟩)
      obtain ⟨xs, x, ys, zs, heq⟩ := ih ht
      exact ⟨c :: xs, x, ys, zs, by simp [heq]⟩

/-- Cutting the loop between two visits of the same node keeps a path. -/
theorem chainFrom_cut {arcs : List Arc} {a b x : Nat} {xs ys zs : List Nat}
    (h : chainFrom arcs a (xs ++ x :: (ys ++ x :: zs)) b) :
    chainFrom arcs a (xs ++ x :: zs) b := by
  have h1 : chainFrom arcs a ((xs ++ [x]) ++ ((ys ++ [x]) ++ zs)) b := by
    simpa [List.append_assoc] using h
  obtain ⟨m, hm1, hm2⟩ := (chainFrom_append (xs ++ [x]) _).1 h1
  rw [chainFrom_last hm1] at hm1 hm2
  obtain ⟨m2, hm3, hm4⟩ := (chainFrom_append (ys ++ [x]) zs).1 hm2
  rw [chainFrom_last hm3] at hm4
  have hjoin : chainFrom arcs a ((xs ++ [x]) ++ zs) b :=
    (chainFrom_append (xs ++ [x]) zs).2 ⟨x, hm1, hm4⟩
  simpa [List.append_assoc] using hjoin

/-- Every path shortens to a duplicate-free path. -/
theorem chainFrom_shorten {arcs : List Arc} {a b : Nat} :
    ∀ (n : Nat) (cs : List Nat), cs.length ≤ n → chainFrom arcs a cs b →
      ∃ cs2, cs2.Nodup ∧ chainFrom arcs a cs2 b := by
  intro n
  induction n with
  | zero =>
    intro cs hlen hc
    have : cs = [] := List.length_eq_zero.1 (Nat.le_zero.1 hlen)
    subst this
    exact ⟨[], List.nodup_nil, hc⟩
  | succ n ih =>
    intro cs hlen hc
    by_cases hnd : cs.Nodup
    · exact ⟨cs, hnd, hc⟩
    · obtain ⟨xs, x, ys, zs, rfl⟩ := exists_dup_split hnd
      refine ih (xs ++ x :: zs) ?_ (chainFrom_cut hc)
      simp only [List.length_append, List.length_cons] at hlen ⊢
      omega

/-- A duplicate-free list drawn from `ds` is no longer than `ds`. -/
theorem nodup_length_le_of_mem {cs ds : List Nat} (hnd : cs.Nodup)
    (hsub : ∀ x ∈ cs, x ∈ ds) : cs.length ≤ ds.length :=
  calc cs.length = cs.toFinset.card := (List.toFinset_card_of_nodup hnd).symm
    _ ≤ ds.toFinset.card := Finset.card_le_card (fun x hx => by
        rw [List.mem_toFinset] at hx ⊢
        exact hsub x hx)
    _ ≤ ds.length := List.toFinset_card_le ds

/-- The executable check decides reachability: `arcs.length` hops suffice
because a duplicate-free path visits each arc destination at most once. -/
theorem reachable_iff_Reaches (arcs : List Arc) (a b : Nat) :
    reachable arcs a b = true ↔ Reaches arcs a b := by
  constructor
  · exact reachUpTo_sound arcs arcs.length a b
  · intro h
    obtain ⟨cs, hc⟩ := reaches_exists_chain h
    obtain ⟨cs2, hnd, hc2⟩ := chainFrom_shorten cs.length cs (le_refl _) hc
    have hlen : cs2.length ≤ arcs.length := by
      have hmem := chainFrom_mem_dest cs2 a hc2
      have hle := nodup_length_le_of_mem hnd hmem
      simpa using hle
    exact reachUpTo_mono a hlen (chainFrom_reachUpTo cs2 a hc2)

/-! ## Acyclicity preservation -/

/-- One hop in an extended arc set: an old hop or the new arc itself. -/
theorem arcStep_cons {e : Arc} {arcs : List Arc} {a b : Nat} :
    arcStep (e :: arcs) a b ↔
      arcStep arcs a b ∨ (a = e.sourceNode ∧ b = e.destNode) := by
  simp only [arcStep, List.mem_cons]
  constructor
  · rintro ⟨f, rfl | hf, rfl, rfl⟩
    · exact Or.inr ⟨rfl, rfl⟩
    · exact Or.inl ⟨f, hf, rfl, rfl⟩
  · rintro (⟨f, hf, rfl, rfl⟩ | ⟨rfl, rfl⟩)
    · exact ⟨f, Or.inr hf, rfl, rfl⟩
    · exact ⟨e, Or.inl rfl, rfl, rfl⟩

/-- A walk in the extended arc set either avoids the new arc, or splits at
its first use. -/
theorem reaches_cons_decompose {e : Arc} {arcs : List Arc} {x y : Nat}
    (h : Relation.ReflTransGen (arcStep (e :: arcs)) x y) :
    Relation.ReflTransGen (arcStep arcs) x y ∨
      (Relation.ReflTransGen (arcStep arcs) x e.sourceNode ∧
        Relation.ReflTransGen (arcStep (e :: arcs)) e.destNode y) := by
  induction h using Relation.ReflTransGen.head_induction_on with
  | refl => exact Or.inl Relation.ReflTransGen.refl
  | head hstep htail ih =>
    rcases arcStep_cons.1 hstep with hold | ⟨rfl, rfl⟩
    · rcases ih with h1 | ⟨h1, h2⟩
      · exact Or.inl (Relation.ReflTransGen.head hold h1)
      · exact Or.inr ⟨Relation.ReflTransGen.head hold h1, h2⟩
    · exact Or.inr ⟨Relation.ReflTransGen.refl, htail⟩

/-- Adding an arc whose destination does not already reach its source keeps
the arc set acyclic. -/
theorem acyclic_insert {arcs : List Arc} {e : Arc} (hacy : Acyclic arcs)
    (hnr : ¬ Reaches arcs e.destNode e.sourceNode) : Acyclic (e :: arcs) := by
  intro x hcyc
  obtain ⟨c, hstep, hrest⟩ := Relation.TransGen.head'_iff.1 hcyc
  have hD : ∀ z, Relation.ReflTransGen (arcStep (e :: arcs)) e.destNode z →
      Relation.ReflTransGen (arcStep arcs) e.destNode z := by
    intro z hz
    rcases reaches_cons_decompose hz with h1 | ⟨h1, _⟩
    · exact h1
    · exact absurd h1 hnr
  rcases arcStep_cons.1 hstep with hold | ⟨rfl, rfl⟩
  · rcases reaches_cons_decompose hrest with h1 | ⟨h1, h2⟩
    · exact hacy x (Relation.TransGen.head' hold h1)
    · exact hnr ((hD x h2).trans (Relation.ReflTransGen.head hold h1))
  · exact hnr (hD e.sourceNode hrest)

/-- Acyclicity is inherited by any subset of the arcs. -/
theorem acyclic_of_subset {arcs1 arcs2 : List Arc}
    (hsub : ∀ e ∈ arcs2, e ∈ arcs1) (hacy : Acyclic arcs1) :
    Acyclic arcs2 := by
  intro x hcyc
  refine hacy x (Relation.TransGen.mono ?_ hcyc)
  rintro a b ⟨f, hf, rfl, rfl⟩
  exact ⟨f, hsub f hf, rfl, rfl⟩

/-- The empty arc set is acyclic. -/
theorem acyclic_nil : Acyclic ([] : List Arc) := by
  intro x hcyc
  obtain ⟨c, hstep, _⟩ := Relation.TransGen.head'_iff.1 hcyc
  obtain ⟨e, he, _⟩ := hstep
  cases he

/-- A successful `connect` adds exactly the requested arc, and only when the
destination could not already reach the source. -/
theorem connect_ok_shape {g : Graph} {sn sp dn dp : Nat} {g2 : Graph}
    (h : connect g sn sp dn dp = .ok g2) :
    g2.nodes = g.nodes ∧ g2.arcs = Arc.mk sn sp dn dp :: g.arcs ∧
      reachable g.arcs dn sn = false := by
  unfold connect at h
  cases hs : findPort g sn sp with
  | none => rw [hs] at h; cases h
  | some s =>
    cases hd : findPort g dn dp with
    | none => rw [hs, hd] at h; cases h
    | some d =>
      simp only [hs, hd] at h
      split_ifs at h with h1 h2 h3 h4
      all_goals first
        | exact Except.noConfusion h
        | · injection h with h5
            subst h5
            exact ⟨rfl, rfl, by simpa using h4⟩

/-- A successful `connect` keeps the arc set acyclic. -/
theorem connect_ok_acyclic {g : Graph} {sn sp dn dp : Nat} {g2 : Graph}
    (hacy : Acyclic g.arcs) (h : connect g sn sp dn dp = .ok g2) :
    Acyclic g2.arcs := by
  obtain ⟨_, harcs, hreach⟩ := connect_ok_shape h
  rw [harcs]
  refine acyclic_insert hacy (fun hr => ?_)
  have := (reachable_iff_Reaches g.arcs dn sn).2 hr
  rw [hreach] at this
  cases this

/-- Every topology operation preserves acyclicity of the arc set. -/
theorem applyOp_acyclic {g : Graph} (hacy : Acyclic g.arcs) (op : GraphOp) :
    Acyclic (applyOp g op).arcs := by
  cases op with
  | connectOp sn sp dn dp =>
    simp only [applyOp, connectApply]
    cases hc : connect g sn sp dn dp with
    | error e => exact hacy
    | ok g2 => exact connect_ok_acyclic hacy hc
  | disconnectOp nid inputs outputs =>
    exact acyclic_of_subset (fun e he => List.mem_of_mem_filter he) hacy
  | addNodeOp n => exact hacy
  | removeNodeOp nid =>
    exact acyclic_of_subset (fun e he => List.mem_of_mem_filter he) hacy

/-- Sequences of topology operations preserve acyclicity. -/
theorem applyOps_acyclic {g : Graph} (hacy : Acyclic g.arcs)
    (ops : List GraphOp) : Acyclic (applyOps g ops).arcs := by
  induction ops generalizing g with
  | nil => exact hacy
  | cons op ops ih => exact ih (applyOp_acyclic hacy op)

/-! ## Example graph used by the witnesses -/

/-- Audio output port at index 0. -/
def portOut0 : Port := ⟨0, .audio, .output⟩

/-- Audio input port at index 1. -/
def portIn1 : Port := ⟨1, .audio, .input⟩

/-- Audio output port at index 2. -/
def portOut2 : Port := ⟨2, .audio, .output⟩

/-- Audio input port at index 3. -/
def portIn3 : Port := ⟨3, .audio, .input⟩

/-- Example node with id 1 and two audio ports of each direction. -/
def nodeOne : NodeEntry := ⟨1, [portOut0, portIn1, portOut2, portIn3]⟩

/-- Example node with id 2 and two audio ports of each direction. -/
def nodeTwo : NodeEntry := ⟨2, [portOut0, portIn1, portOut2, portIn3]⟩

/-- Example graph holding the single arc 1→2. -/
def exGraph : Graph := ⟨[nodeOne, nodeTwo], [⟨1, 0, 2, 1⟩]⟩

/-! ## Claims about the graph container -/

/-- C1: the arc set stays acyclic under every sequence of
connect/disconnect/add/remove operations; `connect (A, srcPort, B, dstPort)`
with valid compatible ports is rejected with `WouldCreateCycle` whenever `B`
can already reach `A`; in particular, given an existing arc A→B with
compatible ports, `connect (B, A)` fails with `WouldCreateCycle`. -/
theorem c1_arcs_stay_acyclic :
    (∀ (g : Graph) (ops : List GraphOp), Acyclic g.arcs →
      Acyclic (applyOps g ops).arcs) ∧
    (∀ (g : Graph) (sn sp dn dp : Nat) (s d : Port),
      findPort g sn sp = some s → findPort g dn dp = some d →
      s.direction = PortDirection.output → d.direction = PortDirection.input →
      s.type = d.type → Arc.mk sn sp dn dp ∉ g.arcs →
      Reaches g.arcs dn sn →
      connect g sn sp dn dp = .error .wouldCreateCycle) ∧
    (∀ (g : Graph) (a ap b bp sp dp : Nat) (s d : Port),
      Arc.mk a ap b bp ∈ g.arcs →
      findPort g b sp = some s → findPort g a dp = some d →
      s.direction = PortDirection.output → d.direction = PortDirection.input →
      s.type = d.type → Arc.mk b sp a dp ∉ g.arcs →
      connect g b sp a dp = .error .wouldCreateCycle) := by
  refine ⟨fun g ops h => applyOps_acyclic h ops, ?_, ?_⟩
  · intro g sn sp dn dp s d hs hd hdir1 hdir2 htype hdup hreach
    have hr : reachable g.arcs dn sn = true :=
      (reachable_iff_Reaches g.arcs dn sn).2 hreach
    simp [connect, hs, hd, hdir1, hdir2, htype, hdup, hr]
  · intro g a ap b bp sp dp s d hmem hs hd hdir1 hdir2 htype hdup
    have hreach : Reaches g.arcs a b :=
      Relation.ReflTransGen.single ⟨Arc.mk a ap b bp, hmem, rfl, rfl⟩
    have hr : reachable g.arcs a b = true :=
      (reachable_iff_Reaches g.arcs a b).2 hreach
    simp [connect, hs, hd, hdir1, hdir2, htype, hdup, hr]

/-- C1 witness: connecting 1→2 on an empty arc set keeps the graph acyclic;
on the example graph with arc 1→2, both back-connections 2→1 are rejected
with `WouldCreateCycle`. -/
theorem c1_arcs_stay_acyclic_witness :
    Acyclic (applyOps (Graph.mk [nodeOne, nodeTwo] [])
      [GraphOp.connectOp 1 0 2 1]).arcs ∧
    connect exGraph 2 2 1 3 = .error .wouldCreateCycle ∧
    connect exGraph 2 0 1 1 = .error .wouldCreateCycle := by
  refine ⟨c1_arcs_stay_acyclic.1 _ _ acyclic_nil, ?_, ?_⟩
  · exact c1_arcs_stay_acyclic.2.1 exGraph 2 2 1 3 portOut2 portIn3 rfl rfl rfl rfl
      rfl (by decide)
      (Relation.ReflTransGen.single ⟨Arc.mk 1 0 2 1, by decide, rfl, rfl⟩)
  · exact c1_arcs_stay_acyclic.2.2 exGraph 1 0 2 1 0 1 portOut0 portIn1 (by decide)
      rfl rfl rfl rfl rfl (by decide)

/-- C2: `connect` returns success or exactly one typed failure —
`InvalidPort` when a port is missing, then `DirectionMismatch`,
`TypeMismatch`, `Duplicate`, `WouldCreateCycle` in that priority order — and
on failure the graph is left exactly as it was, while on success exactly the
requested arc is added. -/
theorem c2_connect_typed_failures (g : Graph) (sn sp dn dp : Nat) :
    (connect g sn sp dn dp = .error .invalidPort ↔
      (findPort g sn sp = none ∨ findPort g dn dp = none)) ∧
    (∀ s d, findPort g sn sp = some s → findPort g dn dp = some d →
      ((connect g sn sp dn dp = .error .directionMismatch ↔
          (s.direction ≠ PortDirection.output ∨
            d.direction ≠ PortDirection.input)) ∧
       (connect g sn sp dn dp = .error .typeMismatch ↔
          (s.direction = PortDirection.output ∧
            d.direction = PortDirection.input ∧ s.type ≠ d.type)) ∧
       (connect g sn sp dn dp = .error .duplicate ↔
          (s.direction = PortDirection.output ∧
            d.direction = PortDirection.input ∧ s.type = d.type ∧
            Arc.mk sn sp dn dp ∈ g.arcs)) ∧
       (connect g sn sp dn dp = .error .wouldCreateCycle ↔
          (s.direction = PortDirection.output ∧
            d.direction = PortDirection.input ∧ s.type = d.type ∧
            Arc.mk sn sp dn dp ∉ g.arcs ∧ Reaches g.arcs dn sn)) ∧
       (connect g sn sp dn dp =
            .ok { g with arcs := Arc.mk sn sp dn dp :: g.arcs } ↔
          (s.direction = PortDirection.output ∧
            d.direction = PortDirection.input ∧ s.type = d.type ∧
            Arc.mk sn sp dn dp ∉ g.arcs ∧ ¬ Reaches g.arcs dn sn)))) ∧
    (∀ e, connect g sn sp dn dp = .error e →
      connectApply g sn sp dn dp = g) ∧
    (∀ g2, connect g sn sp dn dp = .ok g2 →
      g2.nodes = g.nodes ∧ g2.arcs = Arc.mk sn sp dn dp :: g.arcs) := by
  refine ⟨?_, ?_, ?_, ?_⟩
  · cases hs : findPort g sn sp with
    | none => simp [connect, hs]
    | some s =>
      cases hd : findPort g dn dp with
      | none => simp [connect, hs, hd]
      | some d =>
        simp only [connect, hs, hd]
        constructor
        · intro h
          split_ifs at h <;> simp at h
        · rintro (h | h) <;> exact Option.noConfusion h
  · intro s d hs hd
    by_cases h1 : s.direction = PortDirection.output <;>
      by_cases h2 : d.direction = PortDirection.input <;>
        by_cases h3 : s.type = d.type <;>
          by_cases h4 : Arc.mk sn sp dn dp ∈ g.arcs <;>
            by_cases h5 : reachable g.arcs dn sn = true <;>
              refine ⟨?_, ?_, ?_, ?_, ?_⟩ <;>
                simp [connect, hs, hd, h1, h2, h3, h4, h5,
                  ← reachable_iff_Reaches]
  · intro e he
    simp [connectApply, he]
  · intro g2 h2
    obtain ⟨hn, ha, _⟩ := connect_ok_shape h2
    exact ⟨hn, ha⟩

/-- C2 witness: a valid fresh connection succeeds and adds exactly the arc
1→2; a call naming a nonexistent node fails with `InvalidPort` and leaves
the graph unchanged. -/
theorem c2_connect_typed_failures_witness :
    connect (Graph.mk [nodeOne, nodeTwo] []) 1 0 2 1 =
      .ok (Graph.mk [nodeOne, nodeTwo] [Arc.mk 1 0 2 1]) ∧
    connect exGraph 7 0 1 1 = .error .invalidPort ∧
    connectApply exGraph 7 0 1 1 = exGraph := by
  have hok := ((c2_connect_typed_failures (Graph.mk [nodeOne, nodeTwo] [])
      1 0 2 1).2.1 portOut0 portIn1 rfl rfl).2.2.2.2.2
    ⟨rfl, rfl, rfl, by decide,
      fun hr => absurd
        ((reachable_iff_Reaches (Graph.mk [nodeOne, nodeTwo] []).arcs 2 1).2 hr)
        (by decide)⟩
  have hinv := (c2_connect_typed_failures exGraph 7 0 1 1).1.2
    (Or.inl (by decide))
  exact ⟨hok, hinv,
    (c2_connect_typed_failures exGraph 7 0 1 1).2.2.1 ConnectError.invalidPort hinv⟩

/-! ## Claims about `GraphNode` state -/

/-- C3: after `setGain g`, `getGain` returns `g` immediately while
`getLastGain` still returns the previous committed value; after exactly one
subsequent `updateGain`, `getLastGain` returns `g`. -/
theorem c3_gain_ramp_delay (s : GraphNodeState) (g : ℚ) :
    getGain (setGain s g) = g ∧
    getLastGain (setGain s g) = getLastGain s ∧
    getLastGain (updateGain (setGain s g)) = g := by
  refine ⟨rfl, rfl, ?_⟩
  simp only [updateGain, setGain, getLastGain]
  by_cases h1 : s.lastGain = g <;> by_cases h2 : s.lastInputGain = s.inputGain <;>
    simp [h1, h2]

/-- C4: `getLatencySamples` after `setLatencySamples L` returns
`L + round osLatency`; in particular with `L = 10` it returns
`10 + round osLatency`. -/
theorem c4_latency_samples (s : GraphNodeState) (L : Int) :
    getLatencySamples (setLatencySamples s L) = L + round s.osLatency ∧
    getLatencySamples (setLatencySamples s 10) = 10 + round s.osLatency := by
  constructor <;> · simp only [setLatencySamples, getLatencySamples]
                    split <;> simp_all

/-- C5: a muted node's audible output after rendering is silence, for either
value of the bypass flag: mute is applied after whichever path ran. -/
theorem c5_mute_forces_silence (s : GraphNodeState)
    (processOut bypassOut : Nat → ℚ) (h : isMuted s = true) (bp : Bool) :
    renderOutput (setBypassed s bp) processOut bypassOut = fun _ => 0 := by
  simp only [isMuted, beq_iff_eq] at h
  simp [renderOutput, setBypassed, h]

/-- C5 witness: a concrete muted and bypassed node renders silence. -/
theorem c5_mute_forces_silence_witness :
    renderOutput (setBypassed (setMuted initialGraphNode true) true)
      (fun _ => 1) (fun _ => 2) = fun _ => 0 :=
  c5_mute_forces_silence (setMuted initialGraphNode true)
    (fun _ => 1) (fun _ => 2) rfl true

/-- C6: `setOversamplingFactor` always leaves the exponent at most
`maxOsPow = 3` and the factor at most 8; whenever the exponent is in bounds
the factor is one of 1, 2, 4, 8; a fresh node starts at exponent 0. -/
theorem c6_oversampling_bounded (s : GraphNodeState) (osFactor : Nat) :
    (setOversamplingFactor s osFactor).osPow ≤ maxOsPow ∧
    getOversamplingFactor (setOversamplingFactor s osFactor) ≤ 8 ∧
    (s.osPow ≤ maxOsPow →
      getOversamplingFactor s = 1 ∨ getOversamplingFactor s = 2 ∨
      getOversamplingFactor s = 4 ∨ getOversamplingFactor s = 8) ∧
    initialGraphNode.osPow = 0 := by
  have hle : (setOversamplingFactor s osFactor).osPow ≤ maxOsPow :=
    min_le_right _ _
  refine ⟨hle, ?_, ?_, rfl⟩
  · calc getOversamplingFactor (setOversamplingFactor s osFactor)
        = 2 ^ (setOversamplingFactor s osFactor).osPow := rfl
      _ ≤ 2 ^ maxOsPow := Nat.pow_le_pow_right (by norm_num) hle
      _ = 8 := rfl
  · intro h
    simp only [getOversamplingFactor, maxOsPow] at *
    interval_cases h : s.osPow <;> simp

/-- C6 witness: requesting a factor of 16 lands on exponent 3 (factor 8),
and a fresh node's factor is 1. -/
theorem c6_oversampling_bounded_witness :
    (setOversamplingFactor initialGraphNode 16).osPow ≤ maxOsPow ∧
    getOversamplingFactor initialGraphNode = 1 := by
  refine ⟨(c6_oversampling_bounded initialGraphNode 16).1, ?_⟩
  rcases (c6_oversampling_bounded initialGraphNode 16).2.2.1 (by decide) with h | h | h | h <;>
    first
      | exact h
      | exact absurd h (by decide)

/-- C7: the enabled/bypassed/muted/muteInput flags are independent — each
setter establishes its own flag and leaves the other three queries
unchanged — and every combination of the four flags is realizable. -/
theorem c7_flag_independence (s : GraphNodeState) (b : Bool) :
    (isEnabled (setEnabled s b) = b ∧ isMuted (setEnabled s b) = isMuted s ∧
      isMutingInputs (setEnabled s b) = isMutingInputs s ∧
      isBypassed (setEnabled s b) = isBypassed s) ∧
    (isMuted (setMuted s b) = b ∧ isEnabled (setMuted s b) = isEnabled s ∧
      isMutingInputs (setMuted s b) = isMutingInputs s ∧
      isBypassed (setMuted s b) = isBypassed s) ∧
    (isMutingInputs (setMuteInput s b) = b ∧
      isEnabled (setMuteInput s b) = isEnabled s ∧
      isMuted (setMuteInput s b) = isMuted s ∧
      isBypassed (setMuteInput s b) = isBypassed s) ∧
    (isBypassed (setBypassed s b) = b ∧
      isEnabled (setBypassed s b) = isEnabled s ∧
      isMuted (setBypassed s b) = isMuted s ∧
      isMutingInputs (setBypassed s b) = isMutingInputs s) ∧
    (∀ e m mi bp : Bool, ∃ t : GraphNodeState,
      isEnabled t = e ∧ isMuted t = m ∧ isMutingInputs t = mi ∧
      isBypassed t = bp) := by
  refine ⟨?_, ?_, ?_, ?_, ?_⟩
  · cases b <;>
      simp [isEnabled, isMuted, isMutingInputs, isBypassed, setEnabled]
  · cases b <;>
      simp [isEnabled, isMuted, isMutingInputs, isBypassed, setMuted]
  · cases b <;>
      simp [isEnabled, isMuted, isMutingInputs, isBypassed, setMuteInput]
  · cases b <;>
      simp [isEnabled, isMuted, isMutingInputs, isBypassed, setBypassed]
  · intro e m mi bp
    refine ⟨setBypassed (setMuteInput (setMuted (setEnabled initialGraphNode e) m) mi) bp,
      ?_, ?_, ?_, ?_⟩ <;>
      cases e <;> cases m <;> cases mi <;> cases bp <;> rfl

/-- C8: `getInputRMS`/`getOutputRMS` return `0.0` whenever the channel index
is at least the number of tracked RMS channels, and the in-range
(unchecked-read) branch is taken exactly when `chan` is below the respective
size — the guard covers only the upper bound. -/
theorem c8_rms_channel_guard (s : GraphNodeState) (chan : Int) :
    ((s.inRMS.length : Int) ≤ chan → getInputRMS s chan = some 0) ∧
    ((s.outRMS.length : Int) ≤ chan → getOutputRMS s chan = some 0) ∧
    (getInputRMS s chan = getUnchecked s.inRMS chan ↔
      chan < (s.inRMS.length : Int)) ∧
    (getOutputRMS s chan = getUnchecked s.outRMS chan ↔
      chan < (s.outRMS.length : Int)) := by
  have key : ∀ l : List ℚ,
      (((l.length : Int) ≤ chan →
        (if chan < (l.length : Int) then getUnchecked l chan else some 0) = some 0) ∧
      ((if chan < (l.length : Int) then getUnchecked l chan else some 0)
          = getUnchecked l chan ↔ chan < (l.length : Int))) := by
    intro l
    by_cases h : chan < (l.length : Int)
    · simp [h]
    · have hub : ¬ (0 ≤ chan ∧ chan < (l.length : Int)) := by tauto
      simp [h, getUnchecked, hub]
  exact ⟨(key s.inRMS).1, (key s.outRMS).1, (key s.inRMS).2, (key s.outRMS).2⟩

/-- C8 witness: on a fresh node (no tracked channels), channel 0 is out of
range and both meters read `0.0`. -/
theorem c8_rms_channel_guard_witness :
    getInputRMS initialGraphNode 0 = some 0 ∧
    getOutputRMS initialGraphNode 0 = some 0 :=
  ⟨(c8_rms_channel_guard initialGraphNode 0).1 (by decide),
   (c8_rms_channel_guard initialGraphNode 0).2.1 (by decide)⟩

/-- C9: `setName` with an empty string keeps the old name; with a non-empty
string, `getName` returns exactly that string afterwards. -/
theorem c9_setName_empty_guard (s : GraphNodeState) (n : String) :
    getName (setName s "") = getName s ∧
    (n.isEmpty = false → getName (setName s n) = n) := by
  refine ⟨rfl, fun h => ?_⟩
  simp [setName, getName, h]

/-- C9 witness: setting the name to "Node A" takes effect, at a concrete
state. -/
theorem c9_setName_empty_guard_witness :
    getName (setName initialGraphNode "Node A") = "Node A" :=
  (c9_setName_empty_guard initialGraphNode "Node A").2 (by decide)

/-- C10: a freshly constructed `GraphNode` is enabled, not muted, not muting
inputs, not bypassed, has key range [0, 127], transpose offset 0, MIDI
program 0, and both MIDI-program modes disabled. -/
theorem c10_fresh_node_defaults :
    isEnabled initialGraphNode = true ∧
    isMuted initialGraphNode = false ∧
    isMutingInputs initialGraphNode = false ∧
    isBypassed initialGraphNode = false ∧
    getKeyRange initialGraphNode = (0, 127) ∧
    getTransposeOffset initialGraphNode = 0 ∧
    getMidiProgram initialGraphNode = 0 ∧
    areMidiProgramsEnabled initialGraphNode = false ∧
    useGlobalMidiPrograms initialGraphNode = false := by
  refine ⟨rfl, rfl, rfl, rfl, rfl, rfl, rfl, rfl, rfl⟩

end ElementSpec
